import Mathlib

/-!
Shallow embedding of the wallet/signer registry of `app/src/state.rs`.

The registries `Wollets` and `Signers` wrap a `HashMap<String, _>`; we embed
the map as an association list of entries together with the operations of the
source, written as explicit state passing (a Rust method on `&mut self`
returning `Result<T>` becomes a Lean function returning the `Except` result
paired with the new state).  `HashMap` iteration order is unspecified, so the
entry list stands for the iteration sequence; properties about "the set of
entries" are stated so that they do not depend on the order except where the
source itself does (`vec.first()`).

External collaborators not under `app/src`:
* `Wollet::address(Some(0))` (wollet crate).  Modelled from the spec: the
  wallet carries "a deterministic receiving address at derivation index 0",
  an essential attribute, so the embedding gives each `Wollet` a total
  `firstAddress` field.
* `AnySigner::fingerprint()` (signer crate).  Modelled from the spec:
  "Fingerprint derivation can fail", so the embedding gives each `AnySigner`
  a field `fingerprintRes : Option Fingerprint`; the `.unwrap()` in
  `AppSigner::fingerprint` is a panic when the field is `none`, and the
  operations that may reach that unwrap return `Option` with `none`
  standing for the panic.
* `Config` (config.rs).  Modelled from the spec: a read-only configuration
  snapshot with no operations; an opaque token suffices.
-/

/-- Embedding of a BIP32-style key fingerprint (a fixed-size identifier; the concrete
representation is irrelevant to the registry, only equality is used). -/
abbrev Fingerprint := Nat

/-- Modelled from the spec: a wallet, opaque to the registry except for its first receiving address
`w.address(Some(0)).unwrap().address().to_string()`, modelled from the spec
as a deterministic total attribute. -/
structure Wollet where
  firstAddress : String
deriving DecidableEq, Repr

/-- Modelled from the spec: an in-process signing credential (`AnySigner`); the registry consumes only
`fingerprint()`, which per the spec can fail, so the result is stored as an
`Option`. -/
structure AnySigner where
  fingerprintRes : Option Fingerprint
deriving DecidableEq, Repr

/-- Embedding of `enum AppSigner` with its two variants, available and external. -/
inductive AppSigner where
  | AvailableSigner (s : AnySigner)
  | ExternalSigner (f : Fingerprint)
deriving DecidableEq, Repr

/-- Embedding of `AppSigner::fingerprint`: `s.fingerprint().unwrap()` on the available
variant, the stored value on the external variant.  `none` models the panic
of the `unwrap`. -/
def AppSigner.fingerprintP : AppSigner → Option Fingerprint
  | .AvailableSigner s => s.fingerprintRes
  | .ExternalSigner f => some f

/-- Embedding of the error type `tiny_jrpc::error::Error`, restricted to the variants the
registry produces. -/
inductive TinyRpcError where
  | WalletNotExist (name : String)
  | WalletAlreadyLoaded (name : String)
  | SignerNotExist (name : String)
  | SignerAlreadyLoaded (name : String)
  | Generic (msg : String)
deriving DecidableEq, Repr

/-- Embedding of `HashMap::get` on the entry list. -/
def findEntry {α : Type} (name : String) : List (String × α) → Option α
  | [] => none
  | p :: rest => if p.1 = name then some p.2 else findEntry name rest

/-- Embedding of `HashMap::contains_key` on the entry list. -/
def containsKey {α : Type} (name : String) (l : List (String × α)) : Bool :=
  l.any (fun p => p.1 = name)

/-- Embedding of `HashMap::remove` on the entry list: drops the (unique) entry
with the given key. -/
def removeEntry {α : Type} (name : String) : List (String × α) → List (String × α)
  | [] => []
  | p :: rest => if p.1 = name then rest else p :: removeEntry name rest

/-- Embedding of `pub struct Wollets(HashMap<String, Wollet>)`. -/
structure Wollets where
  entries : List (String × Wollet)
deriving DecidableEq, Repr

/-- Embedding of `pub struct Signers(HashMap<String, AppSigner>)`. -/
structure Signers where
  entries : List (String × AppSigner)
deriving DecidableEq, Repr

namespace Wollets

/-- Embedding of `Wollets::get`: lookup or `WalletNotExist(name)`. -/
def get (m : Wollets) (name : String) : Except TinyRpcError Wollet :=
  match findEntry name m.entries with
  | some w => .ok w
  | none => .error (.WalletNotExist name)

/-- Embedding of `Wollets::get_mut`: the same lookup with mutable access; the key set of
the map is unaffected, so the embedding is the same pure lookup. -/
def get_mut (m : Wollets) (name : String) : Except TinyRpcError Wollet :=
  match findEntry name m.entries with
  | some w => .ok w
  | none => .error (.WalletNotExist name)

/-- Embedding of `Wollets::insert`: reject an existing name; otherwise collect the names of
entries sharing the new wallet's first address and reject with the first such
name; otherwise insert. -/
def insert (m : Wollets) (name : String) (w : Wollet) :
    Except TinyRpcError Unit × Wollets :=
  if containsKey name m.entries then
    (.error (.WalletAlreadyLoaded name), m)
  else
    let vec : List String :=
      (m.entries.filter (fun p => p.2.firstAddress = w.firstAddress)).map (·.1)
    match vec.head? with
    | some existing => (.error (.WalletAlreadyLoaded existing), m)
    | none => (.ok (), ⟨m.entries ++ [(name, w)]⟩)

/-- Embedding of `Wollets::remove`: remove and return the entry, or `WalletNotExist(name)`. -/
def remove (m : Wollets) (name : String) :
    Except TinyRpcError Wollet × Wollets :=
  match findEntry name m.entries with
  | some w => (.ok w, ⟨removeEntry name m.entries⟩)
  | none => (.error (.WalletNotExist name), m)

/-- Embedding of `Wollets::iter`: the sequence of entries. -/
def iter (m : Wollets) : List (String × Wollet) :=
  m.entries

end Wollets

namespace Signers

/-- Embedding of `Signers::get`: lookup or `SignerNotExist(name)`. -/
def get (m : Signers) (name : String) : Except TinyRpcError AppSigner :=
  match findEntry name m.entries with
  | some s => .ok s
  | none => .error (.SignerNotExist name)

/-- Embedding of `Signers::get_mut`: same lookup, mutable access; key set unaffected. -/
def get_mut (m : Signers) (name : String) : Except TinyRpcError AppSigner :=
  match findEntry name m.entries with
  | some s => .ok s
  | none => .error (.SignerNotExist name)

/-- Embedding of `Signers::get_available`: `get` then match on the variant, the external
variant failing with the capability error. -/
def get_available (m : Signers) (name : String) :
    Except TinyRpcError AnySigner :=
  match get m name with
  | .error e => .error e
  | .ok (.AvailableSigner s) => .ok s
  | .ok (.ExternalSigner _) =>
      .error (.Generic "Invalid operation for external signer")

/-- The fingerprint-collision scan of `Signers::insert`:
`self.0.iter().filter(|(_, s)| s.fingerprint() == signer.fingerprint()).map(|(n, _)| n).collect()`.
The closure evaluates `s.fingerprint()` then `signer.fingerprint()` for each
entry scanned; `none` models the panic of either `unwrap`.  On an empty map
the closure never runs, so no fingerprint is computed at all. -/
def collectFpMatches (signer : AppSigner) :
    List (String × AppSigner) → Option (List String)
  | [] => some []
  | p :: rest =>
    match p.2.fingerprintP with
    | none => none
    | some f1 =>
      match signer.fingerprintP with
      | none => none
      | some f2 =>
        match collectFpMatches signer rest with
        | none => none
        | some ns => some (if f1 = f2 then p.1 :: ns else ns)

/-- Embedding of `Signers::insert`: reject an existing name (before any fingerprint is
computed); otherwise scan for a fingerprint collision and reject with the
first colliding name; otherwise insert.  The outer `Option` is `none` when a
fingerprint `unwrap` panics during the scan. -/
def insert (m : Signers) (name : String) (signer : AppSigner) :
    Option (Except TinyRpcError Unit × Signers) :=
  if containsKey name m.entries then
    some (.error (.SignerAlreadyLoaded name), m)
  else
    match collectFpMatches signer m.entries with
    | none => none
    | some vec =>
      match vec.head? with
      | some existing => some (.error (.SignerAlreadyLoaded existing), m)
      | none => some (.ok (), ⟨m.entries ++ [(name, signer)]⟩)

/-- Embedding of `Signers::remove`: remove and return the entry, or `SignerNotExist(name)`. -/
def remove (m : Signers) (name : String) :
    Except TinyRpcError AppSigner × Signers :=
  match findEntry name m.entries with
  | some s => (.ok s, ⟨removeEntry name m.entries⟩)
  | none => (.error (.SignerNotExist name), m)

/-- Embedding of `Signers::iter`: the sequence of entries. -/
def iter (m : Signers) : List (String × AppSigner) :=
  m.entries

end Signers

/-- Modelled from the spec (`Config` of config.rs is outside the visible core): a read-only
configuration snapshot; its contents are irrelevant to the
registries, so it is an opaque token. -/
structure Config where
  token : Nat
deriving DecidableEq, Repr

/-- Embedding of `pub struct State`, bundling the configuration with the two registries. -/
structure State where
  config : Config
  wollets : Wollets
  signers : Signers
deriving DecidableEq, Repr

/-- Embedding of `#[derive(Default)]` for `State`: empty registries and the
default configuration. -/
def State.default : State :=
  ⟨⟨0⟩, ⟨[]⟩, ⟨[]⟩⟩

/-- Registry operation as an RPC handler performs it on the shared state:
`state.wollets.insert(...)` borrows the `wollets` field only, so the other
fields are untouched. -/
def State.insertWollet (st : State) (name : String) (w : Wollet) :
    Except TinyRpcError Unit × State :=
  let r := st.wollets.insert name w
  (r.1, { st with wollets := r.2 })

/-- Registry operation as an RPC handler performs it on the shared state:
`state.wollets.remove(...)` borrows the `wollets` field only. -/
def State.removeWollet (st : State) (name : String) :
    Except TinyRpcError Wollet × State :=
  let r := st.wollets.remove name
  (r.1, { st with wollets := r.2 })

/-- Registry operation as an RPC handler performs it on the shared state:
`state.signers.insert(...)` borrows the `signers` field only. -/
def State.insertSigner (st : State) (name : String) (s : AppSigner) :
    Option (Except TinyRpcError Unit × State) :=
  match st.signers.insert name s with
  | none => none
  | some r => some (r.1, { st with signers := r.2 })

/-- Registry operation as an RPC handler performs it on the shared state:
`state.signers.remove(...)` borrows the `signers` field only. -/
def State.removeSigner (st : State) (name : String) :
    Except TinyRpcError AppSigner × State :=
  let r := st.signers.remove name
  (r.1, { st with signers := r.2 })

/-! ## Invariants -/

/-- Invariants I1 and I2: within the wallet registry, no two entries share a
name and no two entries share a first receiving address. -/
def WolletsInv (m : Wollets) : Prop :=
  m.entries.Pairwise (fun p q => p.1 ≠ q.1 ∧ p.2.firstAddress ≠ q.2.firstAddress)

/-- Invariants I3 and I4: within the signer registry, no two entries share a
name and no two entries share a fingerprint (compared, as in the source,
through `AppSigner::fingerprint`). -/
def SignersInv (m : Signers) : Prop :=
  m.entries.Pairwise (fun p q => p.1 ≠ q.1 ∧ p.2.fingerprintP ≠ q.2.fingerprintP)

/-! ## Helper lemmas about the map primitives -/

theorem containsKey_eq_false_iff {α : Type} (name : String)
    (l : List (String × α)) :
    containsKey name l = false ↔ ∀ p ∈ l, p.1 ≠ name := by
  simp [containsKey]

theorem findEntry_eq_none_iff {α : Type} (name : String)
    (l : List (String × α)) :
    findEntry name l = none ↔ ∀ p ∈ l, p.1 ≠ name := by
  induction l with
  | nil => simp [findEntry]
  | cons p rest ih =>
    by_cases h : p.1 = name
    · simp [findEntry, h]
    · simp [findEntry, h, ih]

theorem findEntry_mem {α : Type} {name : String} {l : List (String × α)}
    {x : α} (h : findEntry name l = some x) : (name, x) ∈ l := by
  induction l with
  | nil => simp [findEntry] at h
  | cons p rest ih =>
    by_cases hp : p.1 = name
    · simp [findEntry, hp] at h
      cases p
      simp_all
    · simp [findEntry, hp] at h
      exact List.mem_cons_of_mem _ (ih h)

theorem findEntry_append_self {α : Type} {name : String}
    {l : List (String × α)} (x : α) (h : ∀ p ∈ l, p.1 ≠ name) :
    findEntry name (l ++ [(name, x)]) = some x := by
  induction l with
  | nil => simp [findEntry]
  | cons p rest ih =>
    have hp : p.1 ≠ name := h p (by simp)
    simp only [List.cons_append, findEntry, hp, if_neg hp]
    exact ih (fun q hq => h q (by simp [hq]))

theorem removeEntry_append_self {α : Type} {name : String}
    {l : List (String × α)} (x : α) (h : ∀ p ∈ l, p.1 ≠ name) :
    removeEntry name (l ++ [(name, x)]) = l := by
  induction l with
  | nil => simp [removeEntry]
  | cons p rest ih =>
    have hp : p.1 ≠ name := h p (by simp)
    simp only [List.cons_append, removeEntry, if_neg hp]
    have := ih (fun q hq => h q (by simp [hq]))
    simp only [List.append_eq] at this ⊢
    rw [this]

theorem removeEntry_sublist {α : Type} (name : String)
    (l : List (String × α)) : (removeEntry name l).Sublist l := by
  induction l with
  | nil => simp [removeEntry]
  | cons p rest ih =>
    by_cases hp : p.1 = name
    · simp only [removeEntry, if_pos hp]
      exact (List.sublist_cons_self p rest)
    · simp only [removeEntry, if_neg hp]
      exact ih.cons₂ p

theorem filter_key_singleton {α β : Type} [DecidableEq β] (k : α → β)
    {l : List α} {x : α}
    (hl : l.Pairwise (fun p q => k p ≠ k q)) (hx : x ∈ l) :
    l.filter (fun p => k p = k x) = [x] := by
  induction l with
  | nil => simp at hx
  | cons p rest ih =>
    rw [List.pairwise_cons] at hl
    rcases List.mem_cons.mp hx with hpx | hrest
    · subst hpx
      have hnone : rest.filter (fun q => k q = k x) = [] := by
        rw [List.filter_eq_nil_iff]
        intro q hq
        simpa using (hl.1 q hq).symm
      simp [List.filter_cons, hnone]
    · have hpk : ¬(k p = k x) := fun h => (hl.1 x hrest) (h.symm ▸ rfl)
      simp only [List.filter_cons, decide_eq_true_eq, if_neg hpk]
      simpa using ih hl.2 hrest

/-! ## Lemmas about the fingerprint-collision scan -/

theorem collectFpMatches_entries_isSome {signer : AppSigner}
    {l : List (String × AppSigner)} {ns : List String}
    (h : Signers.collectFpMatches signer l = some ns) :
    ∀ p ∈ l, (p.2.fingerprintP).isSome := by
  induction l generalizing ns with
  | nil => simp
  | cons p rest ih =>
    intro q hq
    rcases List.mem_cons.mp hq with hqp | hqr
    · subst hqp
      cases hfp : q.2.fingerprintP with
      | none => simp [Signers.collectFpMatches, hfp] at h
      | some f => simp [hfp]
    · cases hfp : p.2.fingerprintP with
      | none => simp [Signers.collectFpMatches, hfp] at h
      | some f1 =>
        cases hs : signer.fingerprintP with
        | none => simp [Signers.collectFpMatches, hfp, hs] at h
        | some f2 =>
          cases hrest : Signers.collectFpMatches signer rest with
          | none => simp [Signers.collectFpMatches, hfp, hs, hrest] at h
          | some ns0 => exact ih hrest q hqr

theorem collectFpMatches_spec {signer : AppSigner}
    {l : List (String × AppSigner)} {ns : List String}
    (h : Signers.collectFpMatches signer l = some ns) :
    ns = (l.filter
        (fun p => p.2.fingerprintP = signer.fingerprintP)).map Prod.fst := by
  induction l generalizing ns with
  | nil => simp [Signers.collectFpMatches] at h; simp [h]
  | cons p rest ih =>
    cases hfp : p.2.fingerprintP with
    | none => simp [Signers.collectFpMatches, hfp] at h
    | some f1 =>
      cases hs : signer.fingerprintP with
      | none => simp [Signers.collectFpMatches, hfp, hs] at h
      | some f2 =>
        cases hrest : Signers.collectFpMatches signer rest with
        | none => simp [Signers.collectFpMatches, hfp, hs, hrest] at h
        | some ns0 =>
          simp only [Signers.collectFpMatches, hfp, hs, hrest,
            Option.some_inj] at h
          have ih2 := ih hrest
          simp only [hs] at ih2
          by_cases hf : f1 = f2
          · subst hf
            simp only [if_pos rfl] at h
            subst h
            simp [List.filter_cons, hfp, hs, ih2]
          · simp only [if_neg hf] at h
            subst h
            simp [List.filter_cons, hfp, hs, hf, ih2]

theorem collectFpMatches_total {signer : AppSigner}
    {l : List (String × AppSigner)}
    (h1 : ∀ p ∈ l, (p.2.fingerprintP).isSome)
    (h2 : (signer.fingerprintP).isSome ∨ l = []) :
    (Signers.collectFpMatches signer l).isSome := by
  induction l with
  | nil => simp [Signers.collectFpMatches]
  | cons p rest ih =>
    rcases h2 with h2 | h2
    · obtain ⟨f1, hf1⟩ := Option.isSome_iff_exists.mp (h1 p (by simp))
      obtain ⟨f2, hf2⟩ := Option.isSome_iff_exists.mp h2
      have hrest := ih (fun q hq => h1 q (by simp [hq])) (Or.inl h2)
      obtain ⟨ns, hns⟩ := Option.isSome_iff_exists.mp hrest
      simp [Signers.collectFpMatches, hf1, hf2, hns]
    · simp at h2

theorem collectFpMatches_none {signer : AppSigner}
    {l : List (String × AppSigner)}
    (h : Signers.collectFpMatches signer l = none) :
    (∃ p ∈ l, p.2.fingerprintP = none) ∨
      (l ≠ [] ∧ signer.fingerprintP = none) := by
  by_cases hall : ∀ p ∈ l, (p.2.fingerprintP).isSome
  · by_cases hl : l = []
    · subst hl; simp [Signers.collectFpMatches] at h
    · cases hs : signer.fingerprintP with
      | none => exact Or.inr ⟨hl, rfl⟩
      | some f =>
        have hts : (Signers.collectFpMatches signer l).isSome :=
          collectFpMatches_total hall (Or.inl (by simp [hs]))
        rw [h] at hts
        simp at hts
  · push_neg at hall
    obtain ⟨p, hp, hnone⟩ := hall
    exact Or.inl ⟨p, hp, Option.not_isSome_iff_eq_none.mp hnone⟩

/-! ## Characterizations of the two inserts -/

theorem wollets_insert_name_collision (m : Wollets) (name : String)
    (w : Wollet) (h : containsKey name m.entries = true) :
    Wollets.insert m name w = (.error (.WalletAlreadyLoaded name), m) := by
  simp [Wollets.insert, h]

theorem wollets_insert_success (m : Wollets) (name : String) (w : Wollet)
    (hname : containsKey name m.entries = false)
    (haddr : ∀ p ∈ m.entries, p.2.firstAddress ≠ w.firstAddress) :
    Wollets.insert m name w = (.ok (), ⟨m.entries ++ [(name, w)]⟩) := by
  have hfilter :
      m.entries.filter (fun p => p.2.firstAddress = w.firstAddress) = [] := by
    rw [List.filter_eq_nil_iff]
    intro p hp
    simpa using haddr p hp
  simp [Wollets.insert, hname, hfilter]

theorem wollets_insert_ok_inv (m : Wollets) (name : String) (w : Wollet)
    (h : (Wollets.insert m name w).1 = .ok ()) :
    containsKey name m.entries = false ∧
      (Wollets.insert m name w).2 = ⟨m.entries ++ [(name, w)]⟩ ∧
      ∀ p ∈ m.entries, p.2.firstAddress ≠ w.firstAddress := by
  by_cases hc : containsKey name m.entries
  · simp [Wollets.insert, hc] at h
  · have hc' : containsKey name m.entries = false := by simpa using hc
    cases hh : ((m.entries.filter
        (fun p => p.2.firstAddress = w.firstAddress)).map (·.1)).head? with
    | some e => simp [Wollets.insert, hc', hh] at h
    | none =>
      have hnil : m.entries.filter
          (fun p => p.2.firstAddress = w.firstAddress) = [] := by
        have := List.head?_eq_none_iff.mp hh
        exact List.map_eq_nil_iff.mp this
      refine ⟨hc', by simp [Wollets.insert, hc', hh], ?_⟩
      intro p hp
      have := List.filter_eq_nil_iff.mp hnil p hp
      simpa using this

theorem wollets_insert_addr_collision (m : Wollets) (name : String)
    (w : Wollet) (n₀ : String) (w₀ : Wollet) (hinv : WolletsInv m)
    (hname : containsKey name m.entries = false)
    (hmem : (n₀, w₀) ∈ m.entries)
    (haddr : w₀.firstAddress = w.firstAddress) :
    Wollets.insert m name w = (.error (.WalletAlreadyLoaded n₀), m) := by
  have hpair : m.entries.Pairwise
      (fun p q => p.2.firstAddress ≠ q.2.firstAddress) :=
    hinv.imp And.right
  have hfilter := filter_key_singleton (fun p => p.2.firstAddress)
    hpair hmem
  simp only [haddr] at hfilter
  simp [Wollets.insert, hname, hfilter]

theorem signers_insert_name_collision (m : Signers) (name : String)
    (s : AppSigner) (h : containsKey name m.entries = true) :
    Signers.insert m name s = some (.error (.SignerAlreadyLoaded name), m) := by
  simp [Signers.insert, h]

theorem signers_insert_success (m : Signers) (name : String) (s : AppSigner)
    (hname : containsKey name m.entries = false)
    (hall : ∀ p ∈ m.entries, (p.2.fingerprintP).isSome)
    (hsome : (s.fingerprintP).isSome ∨ m.entries = [])
    (hne : ∀ p ∈ m.entries, p.2.fingerprintP ≠ s.fingerprintP) :
    Signers.insert m name s = some (.ok (), ⟨m.entries ++ [(name, s)]⟩) := by
  obtain ⟨ns, hns⟩ := Option.isSome_iff_exists.mp
    (collectFpMatches_total hall hsome)
  have hspec := collectFpMatches_spec hns
  have hfilter : m.entries.filter
      (fun p => p.2.fingerprintP = s.fingerprintP) = [] := by
    rw [List.filter_eq_nil_iff]
    intro p hp
    simpa using hne p hp
  rw [hfilter] at hspec
  simp only [List.map_nil] at hspec
  subst hspec
  simp [Signers.insert, hname, hns]

theorem signers_insert_ok_inv (m : Signers) (name : String) (s : AppSigner)
    (r : Signers) (h : Signers.insert m name s = some (.ok (), r)) :
    containsKey name m.entries = false ∧ r = ⟨m.entries ++ [(name, s)]⟩ ∧
      ∀ p ∈ m.entries, p.2.fingerprintP ≠ s.fingerprintP := by
  by_cases hc : containsKey name m.entries
  · simp [Signers.insert, hc] at h
  · have hc' : containsKey name m.entries = false := by simpa using hc
    cases hcol : Signers.collectFpMatches s m.entries with
    | none => simp [Signers.insert, hc', hcol] at h
    | some ns =>
      cases hns : ns.head? with
      | some e => simp [Signers.insert, hc', hcol, hns] at h
      | none =>
        have hnil : ns = [] := List.head?_eq_none_iff.mp hns
        subst hnil
        have hspec := collectFpMatches_spec hcol
        have hfilter : m.entries.filter
            (fun p => p.2.fingerprintP = s.fingerprintP) = [] :=
          List.map_eq_nil_iff.mp hspec.symm
        refine ⟨hc', ?_, ?_⟩
        · simp [Signers.insert, hc', hcol, hns] at h
          exact h.symm
        · intro p hp
          have := List.filter_eq_nil_iff.mp hfilter p hp
          simpa using this

theorem signers_insert_fp_collision (m : Signers) (name : String)
    (s : AppSigner) (n₀ : String) (s₀ : AppSigner) (hinv : SignersInv m)
    (hname : containsKey name m.entries = false)
    (hmem : (n₀, s₀) ∈ m.entries)
    (hall : ∀ p ∈ m.entries, (p.2.fingerprintP).isSome)
    (hfp : s₀.fingerprintP = s.fingerprintP) :
    Signers.insert m name s = some (.error (.SignerAlreadyLoaded n₀), m) := by
  have hsome : (s.fingerprintP).isSome := by
    rw [← hfp]
    exact hall (n₀, s₀) hmem
  obtain ⟨ns, hns⟩ := Option.isSome_iff_exists.mp
    (collectFpMatches_total hall (Or.inl hsome))
  have hspec := collectFpMatches_spec hns
  have hpair : m.entries.Pairwise
      (fun p q => p.2.fingerprintP ≠ q.2.fingerprintP) :=
    hinv.imp And.right
  have hfilter := filter_key_singleton (fun p => p.2.fingerprintP)
    hpair hmem
  simp only [hfp] at hfilter
  rw [hfilter] at hspec
  simp only [List.map_cons, List.map_nil] at hspec
  subst hspec
  simp [Signers.insert, hname, hns]

/-! ## Preservation of the invariants -/

theorem wolletsInv_insert (m : Wollets) (name : String) (w : Wollet)
    (h : WolletsInv m) : WolletsInv (Wollets.insert m name w).2 := by
  by_cases hc : containsKey name m.entries
  · simpa [Wollets.insert, hc] using h
  · have hc' : containsKey name m.entries = false := by simpa using hc
    cases hh : ((m.entries.filter
        (fun p => p.2.firstAddress = w.firstAddress)).map (·.1)).head? with
    | some e => simpa [Wollets.insert, hc', hh] using h
    | none =>
      have hnil := List.map_eq_nil_iff.mp (List.head?_eq_none_iff.mp hh)
      have hnames := (containsKey_eq_false_iff _ _).mp hc'
      have haddrs : ∀ p ∈ m.entries, p.2.firstAddress ≠ w.firstAddress := by
        intro p hp
        simpa using List.filter_eq_nil_iff.mp hnil p hp
      have hnew : WolletsInv ⟨m.entries ++ [(name, w)]⟩ := by
        unfold WolletsInv
        rw [List.pairwise_append]
        refine ⟨h, by simp, ?_⟩
        intro a ha b hb
        simp only [List.mem_singleton] at hb
        subst hb
        exact ⟨hnames a ha, haddrs a ha⟩
      simpa [Wollets.insert, hc', hh] using hnew

theorem wolletsInv_remove (m : Wollets) (name : String)
    (h : WolletsInv m) : WolletsInv (Wollets.remove m name).2 := by
  cases hf : findEntry name m.entries with
  | some w =>
    have hsub : WolletsInv ⟨removeEntry name m.entries⟩ :=
      List.Pairwise.sublist (removeEntry_sublist name m.entries) h
    simpa [Wollets.remove, hf] using hsub
  | none => simpa [Wollets.remove, hf] using h

theorem signersInv_insert (m : Signers) (name : String) (s : AppSigner)
    (r : Except TinyRpcError Unit × Signers) (h : SignersInv m)
    (hr : Signers.insert m name s = some r) : SignersInv r.2 := by
  by_cases hc : containsKey name m.entries
  · simp [Signers.insert, hc] at hr
    simp [← hr]
    exact h
  · have hc' : containsKey name m.entries = false := by simpa using hc
    cases hcol : Signers.collectFpMatches s m.entries with
    | none => simp [Signers.insert, hc', hcol] at hr
    | some ns =>
      cases hns : ns.head? with
      | some e =>
        simp [Signers.insert, hc', hcol, hns] at hr
        simp [← hr]
        exact h
      | none =>
        have hnil : ns = [] := List.head?_eq_none_iff.mp hns
        subst hnil
        have hfilter :=
          List.map_eq_nil_iff.mp (collectFpMatches_spec hcol).symm
        have hnames := (containsKey_eq_false_iff _ _).mp hc'
        have hfps : ∀ p ∈ m.entries, p.2.fingerprintP ≠ s.fingerprintP := by
          intro p hp
          simpa using List.filter_eq_nil_iff.mp hfilter p hp
        have hnew : SignersInv ⟨m.entries ++ [(name, s)]⟩ := by
          unfold SignersInv
          rw [List.pairwise_append]
          refine ⟨h, by simp, ?_⟩
          intro a ha b hb
          simp only [List.mem_singleton] at hb
          subst hb
          exact ⟨hnames a ha, hfps a ha⟩
        simp [Signers.insert, hc', hcol] at hr
        simp [← hr]
        exact hnew

theorem signersInv_remove (m : Signers) (name : String)
    (h : SignersInv m) : SignersInv (Signers.remove m name).2 := by
  cases hf : findEntry name m.entries with
  | some s =>
    have hsub : SignersInv ⟨removeEntry name m.entries⟩ :=
      List.Pairwise.sublist (removeEntry_sublist name m.entries) h
    simpa [Signers.remove, hf] using hsub
  | none => simpa [Signers.remove, hf] using h

/-! ## The claims -/

/-- C1: after every registry operation the four uniqueness invariants hold
(I1/I2 for the wallet registry, I3/I4 for the signer registry).  The
state-returning operations are `insert` and `remove` (both on success and on
failure); `get`, `get_mut` and `iter` take the map apart read-only and return
no state, so they cannot disturb the invariants. -/
theorem C1_registry_invariants_preserved (mw : Wollets) (ms : Signers)
    (name : String) (w : Wollet) (s : AppSigner)
    (hw : WolletsInv mw) (hs : SignersInv ms) :
    WolletsInv (Wollets.insert mw name w).2 ∧
    WolletsInv (Wollets.remove mw name).2 ∧
    (∀ r, Signers.insert ms name s = some r → SignersInv r.2) ∧
    SignersInv (Signers.remove ms name).2 :=
  ⟨wolletsInv_insert mw name w hw, wolletsInv_remove mw name hw,
   fun r hr => signersInv_insert ms name s r hs hr,
   signersInv_remove ms name hs⟩

/-- Witness for C1 at a concrete one-entry state of each registry. -/
theorem C1_registry_invariants_preserved_witness :
    WolletsInv (Wollets.insert ⟨[("a", ⟨"x"⟩)]⟩ "b" ⟨"y"⟩).2 ∧
    WolletsInv (Wollets.remove ⟨[("a", ⟨"x"⟩)]⟩ "b").2 ∧
    (∀ r, Signers.insert ⟨[("e", .ExternalSigner 1)]⟩ "b"
        (.ExternalSigner 2) = some r → SignersInv r.2) ∧
    SignersInv (Signers.remove ⟨[("e", .ExternalSigner 1)]⟩ "b").2 :=
  C1_registry_invariants_preserved ⟨[("a", ⟨"x"⟩)]⟩ ⟨[("e", .ExternalSigner 1)]⟩
    "b" ⟨"y"⟩ (.ExternalSigner 2) (by simp [WolletsInv]) (by simp [SignersInv])

/-- C2: a failed insert (name collision or derived-identity collision) leaves
the registry unchanged: `iter` yields exactly the entries it yielded before. -/
theorem C2_failed_insert_leaves_registry_unchanged (mw : Wollets)
    (ms : Signers) (name : String) (w : Wollet) (s : AppSigner) :
    (∀ e : TinyRpcError, (Wollets.insert mw name w).1 = .error e →
      (Wollets.insert mw name w).2.iter = mw.iter) ∧
    (∀ (e : TinyRpcError) (r : Except TinyRpcError Unit × Signers),
      Signers.insert ms name s = some r → r.1 = .error e →
      r.2.iter = ms.iter) := by
  constructor
  · intro e he
    by_cases hc : containsKey name mw.entries
    · simp [Wollets.insert, hc, Wollets.iter]
    · have hc' : containsKey name mw.entries = false := by simpa using hc
      cases hh : ((mw.entries.filter
          (fun p => p.2.firstAddress = w.firstAddress)).map (·.1)).head? with
      | some e2 => simp [Wollets.insert, hc', hh, Wollets.iter]
      | none => simp [Wollets.insert, hc', hh] at he
  · intro e r hr he
    by_cases hc : containsKey name ms.entries
    · simp [Signers.insert, hc] at hr
      simp [← hr, Signers.iter]
    · have hc' : containsKey name ms.entries = false := by simpa using hc
      cases hcol : Signers.collectFpMatches s ms.entries with
      | none => simp [Signers.insert, hc', hcol] at hr
      | some ns =>
        cases hns : ns.head? with
        | some e2 =>
          simp [Signers.insert, hc', hcol, hns] at hr
          simp [← hr, Signers.iter]
        | none =>
          simp [Signers.insert, hc', hcol, hns] at hr
          rw [← hr] at he
          simp at he

/-- Witness for C2: a name-colliding wallet insert and a
fingerprint-colliding signer insert, both leaving the one-entry registry as
it was. -/
theorem C2_failed_insert_leaves_registry_unchanged_witness :
    (Wollets.insert ⟨[("a", ⟨"x"⟩)]⟩ "a" ⟨"y"⟩).2.iter
        = Wollets.iter ⟨[("a", ⟨"x"⟩)]⟩ ∧
    ((Except.error (TinyRpcError.SignerAlreadyLoaded "a"), Signers.mk
        [("a", AppSigner.ExternalSigner 1)]) :
        Except TinyRpcError Unit × Signers).2.iter
        = Signers.iter ⟨[("a", AppSigner.ExternalSigner 1)]⟩ :=
  ⟨(C2_failed_insert_leaves_registry_unchanged ⟨[("a", ⟨"x"⟩)]⟩
      ⟨[("a", .ExternalSigner 1)]⟩ "a" ⟨"y"⟩ (.ExternalSigner 1)).1
      (.WalletAlreadyLoaded "a") (by simp [Wollets.insert, containsKey]),
   (C2_failed_insert_leaves_registry_unchanged ⟨[("a", ⟨"x"⟩)]⟩
      ⟨[("a", .ExternalSigner 1)]⟩ "b" ⟨"y"⟩ (.ExternalSigner 1)).2
      (.SignerAlreadyLoaded "a") _ rfl rfl⟩

/-- C3: insert fails `AlreadyLoaded(name)` on a name collision; with the name
free, a derived-identity collision with the entry under `n₀` fails
`AlreadyLoaded(n₀)` (the pre-existing holder's name); otherwise the entity is
stored under `name`.  For signers the identity-collision and success cases
assume the reached fingerprint derivations succeed (the scan `unwrap`s them,
see C7). -/
theorem C3_insert_error_payloads (mw : Wollets) (ms : Signers) (name : String)
    (w : Wollet) (s : AppSigner) (hw : WolletsInv mw) (hs : SignersInv ms) :
    (containsKey name mw.entries = true →
      Wollets.insert mw name w = (.error (.WalletAlreadyLoaded name), mw)) ∧
    (∀ n₀ w₀, containsKey name mw.entries = false → (n₀, w₀) ∈ mw.entries →
      w₀.firstAddress = w.firstAddress →
      Wollets.insert mw name w = (.error (.WalletAlreadyLoaded n₀), mw)) ∧
    (containsKey name mw.entries = false →
      (∀ p ∈ mw.entries, p.2.firstAddress ≠ w.firstAddress) →
      Wollets.insert mw name w = (.ok (), ⟨mw.entries ++ [(name, w)]⟩)) ∧
    (containsKey name ms.entries = true →
      Signers.insert ms name s
        = some (.error (.SignerAlreadyLoaded name), ms)) ∧
    (∀ n₀ s₀, containsKey name ms.entries = false → (n₀, s₀) ∈ ms.entries →
      (∀ p ∈ ms.entries, (p.2.fingerprintP).isSome) →
      s₀.fingerprintP = s.fingerprintP →
      Signers.insert ms name s
        = some (.error (.SignerAlreadyLoaded n₀), ms)) ∧
    (containsKey name ms.entries = false →
      (∀ p ∈ ms.entries, (p.2.fingerprintP).isSome) →
      ((s.fingerprintP).isSome ∨ ms.entries = []) →
      (∀ p ∈ ms.entries, p.2.fingerprintP ≠ s.fingerprintP) →
      Signers.insert ms name s
        = some (.ok (), ⟨ms.entries ++ [(name, s)]⟩)) :=
  ⟨fun h => wollets_insert_name_collision mw name w h,
   fun n₀ w₀ h1 h2 h3 =>
     wollets_insert_addr_collision mw name w n₀ w₀ hw h1 h2 h3,
   fun h1 h2 => wollets_insert_success mw name w h1 h2,
   fun h => signers_insert_name_collision ms name s h,
   fun n₀ s₀ h1 h2 h3 h4 =>
     signers_insert_fp_collision ms name s n₀ s₀ hs h1 h2 h3 h4,
   fun h1 h2 h3 h4 => signers_insert_success ms name s h1 h2 h3 h4⟩

/-- Witness for C3: the duplicate-wallet-by-address scenario (`"bob"` rejected
with `AlreadyLoaded("alice")`) and a signer fingerprint collision (`"seed2"`
rejected with `AlreadyLoaded("seed1")`). -/
theorem C3_insert_error_payloads_witness :
    Wollets.insert ⟨[("alice", ⟨"addrX"⟩)]⟩ "bob" ⟨"addrX"⟩
        = (.error (.WalletAlreadyLoaded "alice"), ⟨[("alice", ⟨"addrX"⟩)]⟩) ∧
    Signers.insert ⟨[("seed1", .ExternalSigner 7)]⟩ "seed2" (.ExternalSigner 7)
        = some (.error (.SignerAlreadyLoaded "seed1"),
            ⟨[("seed1", .ExternalSigner 7)]⟩) := by
  have h := C3_insert_error_payloads ⟨[("alice", ⟨"addrX"⟩)]⟩
    ⟨[("seed1", .ExternalSigner 7)]⟩ "bob" ⟨"addrX"⟩ (.ExternalSigner 7)
    (by simp [WolletsInv]) (by simp [SignersInv])
  refine ⟨h.2.1 "alice" ⟨"addrX"⟩ (by simp [containsKey]) (by simp) rfl, ?_⟩
  have h2 := h.2.2.2.2.1 "seed1" (.ExternalSigner 7) (by simp [containsKey])
    (by simp) (by simp [AppSigner.fingerprintP]) rfl
  simpa using h2

/-- C4: `get_available(name)` fails `SignerNotExist(name)` when no entry
exists under `name`, fails the distinct capability error
`Generic("Invalid operation for external signer")` on an external signer, and
returns the wrapped `AnySigner` exactly on an available signer. -/
theorem C4_get_available_capability_gating (ms : Signers) (name : String) :
    (findEntry name ms.entries = none →
      Signers.get_available ms name = .error (.SignerNotExist name)) ∧
    (∀ f, findEntry name ms.entries = some (.ExternalSigner f) →
      Signers.get_available ms name
        = .error (.Generic "Invalid operation for external signer")) ∧
    (∀ a, findEntry name ms.entries = some (.AvailableSigner a) →
      Signers.get_available ms name = .ok a) ∧
    (∀ n msg, TinyRpcError.Generic msg ≠ TinyRpcError.SignerNotExist n) := by
  refine ⟨?_, ?_, ?_, ?_⟩
  · intro h
    simp [Signers.get_available, Signers.get, h]
  · intro f h
    simp [Signers.get_available, Signers.get, h]
  · intro a h
    simp [Signers.get_available, Signers.get, h]
  · intro n msg
    simp

/-- Witness for C4 on concrete one-entry registries. -/
theorem C4_get_available_capability_gating_witness :
    Signers.get_available ⟨[("hw1", .ExternalSigner 1)]⟩ "hw1"
        = .error (.Generic "Invalid operation for external signer") ∧
    Signers.get_available ⟨[("hw1", .ExternalSigner 1)]⟩ "sw1"
        = .error (.SignerNotExist "sw1") ∧
    Signers.get_available ⟨[("sw1", .AvailableSigner ⟨some 2⟩)]⟩ "sw1"
        = .ok ⟨some 2⟩ :=
  ⟨(C4_get_available_capability_gating ⟨[("hw1", .ExternalSigner 1)]⟩
      "hw1").2.1 1 (by simp [findEntry]),
   (C4_get_available_capability_gating ⟨[("hw1", .ExternalSigner 1)]⟩
      "sw1").1 (by simp [findEntry]),
   (C4_get_available_capability_gating ⟨[("sw1", .AvailableSigner ⟨some 2⟩)]⟩
      "sw1").2.2.1 ⟨some 2⟩ (by simp [findEntry])⟩

/-- C5: round-trip for both registries: after a successful
`insert(name, x)`, `get(name)` yields `x`, `remove(name)` returns `x`, and a
`get(name)` after that remove fails `NotFound(name)`. -/
theorem C5_round_trip (mw : Wollets) (ms : Signers) (name : String)
    (w : Wollet) (s : AppSigner) :
    ((Wollets.insert mw name w).1 = .ok () →
      Wollets.get (Wollets.insert mw name w).2 name = .ok w ∧
      (Wollets.remove (Wollets.insert mw name w).2 name).1 = .ok w ∧
      Wollets.get (Wollets.remove (Wollets.insert mw name w).2 name).2 name
        = .error (.WalletNotExist name)) ∧
    (∀ m₁, Signers.insert ms name s = some (.ok (), m₁) →
      Signers.get m₁ name = .ok s ∧
      (Signers.remove m₁ name).1 = .ok s ∧
      Signers.get (Signers.remove m₁ name).2 name
        = .error (.SignerNotExist name)) := by
  constructor
  · intro h
    obtain ⟨hc, hstate, -⟩ := wollets_insert_ok_inv mw name w h
    have hfresh := (containsKey_eq_false_iff _ _).mp hc
    have hfind : findEntry name (mw.entries ++ [(name, w)]) = some w :=
      findEntry_append_self w hfresh
    have hrem : removeEntry name (mw.entries ++ [(name, w)]) = mw.entries :=
      removeEntry_append_self w hfresh
    have hnone : findEntry name mw.entries = none :=
      (findEntry_eq_none_iff _ _).mpr hfresh
    rw [hstate]
    exact ⟨by simp [Wollets.get, hfind],
      by simp [Wollets.remove, hfind],
      by simp [Wollets.remove, hfind, hrem, Wollets.get, hnone]⟩
  · intro m₁ h
    obtain ⟨hc, hstate, -⟩ := signers_insert_ok_inv ms name s m₁ h
    have hfresh := (containsKey_eq_false_iff _ _).mp hc
    have hfind : findEntry name (ms.entries ++ [(name, s)]) = some s :=
      findEntry_append_self s hfresh
    have hrem : removeEntry name (ms.entries ++ [(name, s)]) = ms.entries :=
      removeEntry_append_self s hfresh
    have hnone : findEntry name ms.entries = none :=
      (findEntry_eq_none_iff _ _).mpr hfresh
    rw [hstate]
    exact ⟨by simp [Signers.get, hfind],
      by simp [Signers.remove, hfind],
      by simp [Signers.remove, hfind, hrem, Signers.get, hnone]⟩

/-- Witness for C5: the round trip from the empty registries. -/
theorem C5_round_trip_witness :
    (Wollets.get (Wollets.insert ⟨[]⟩ "n" ⟨"x"⟩).2 "n" = .ok ⟨"x"⟩ ∧
     (Wollets.remove (Wollets.insert ⟨[]⟩ "n" ⟨"x"⟩).2 "n").1 = .ok ⟨"x"⟩ ∧
     Wollets.get (Wollets.remove (Wollets.insert ⟨[]⟩ "n" ⟨"x"⟩).2 "n").2 "n"
        = .error (.WalletNotExist "n")) ∧
    (Signers.get ⟨[("n", .ExternalSigner 3)]⟩ "n" = .ok (.ExternalSigner 3) ∧
     (Signers.remove ⟨[("n", .ExternalSigner 3)]⟩ "n").1
        = .ok (.ExternalSigner 3) ∧
     Signers.get (Signers.remove ⟨[("n", .ExternalSigner 3)]⟩ "n").2 "n"
        = .error (.SignerNotExist "n")) :=
  ⟨(C5_round_trip ⟨[]⟩ ⟨[]⟩ "n" ⟨"x"⟩ (.ExternalSigner 3)).1 rfl,
   (C5_round_trip ⟨[]⟩ ⟨[]⟩ "n" ⟨"x"⟩ (.ExternalSigner 3)).2
     ⟨[("n", .ExternalSigner 3)]⟩ rfl⟩

/-- C6: `get`, `get_mut` and `remove` fail `NotFound(name)` carrying the
queried name exactly when no entry exists under `name`; otherwise they return
the stored entry (remove also on a failed lookup leaves the registry as it
was; `get`/`get_mut` never return a modified registry at all, matching the
source where they only look the map up). -/
theorem C6_lookup_contracts (mw : Wollets) (ms : Signers) (name : String) :
    (Wollets.get mw name = .error (.WalletNotExist name) ↔
      findEntry name mw.entries = none) ∧
    (Wollets.get_mut mw name = .error (.WalletNotExist name) ↔
      findEntry name mw.entries = none) ∧
    ((Wollets.remove mw name).1 = .error (.WalletNotExist name) ↔
      findEntry name mw.entries = none) ∧
    (∀ x, findEntry name mw.entries = some x →
      Wollets.get mw name = .ok x ∧ Wollets.get_mut mw name = .ok x ∧
      Wollets.remove mw name = (.ok x, ⟨removeEntry name mw.entries⟩)) ∧
    (findEntry name mw.entries = none → (Wollets.remove mw name).2 = mw) ∧
    (Signers.get ms name = .error (.SignerNotExist name) ↔
      findEntry name ms.entries = none) ∧
    (Signers.get_mut ms name = .error (.SignerNotExist name) ↔
      findEntry name ms.entries = none) ∧
    ((Signers.remove ms name).1 = .error (.SignerNotExist name) ↔
      findEntry name ms.entries = none) ∧
    (∀ x, findEntry name ms.entries = some x →
      Signers.get ms name = .ok x ∧ Signers.get_mut ms name = .ok x ∧
      Signers.remove ms name = (.ok x, ⟨removeEntry name ms.entries⟩)) ∧
    (findEntry name ms.entries = none → (Signers.remove ms name).2 = ms) := by
  cases hf : findEntry name mw.entries with
  | some x =>
    cases hg : findEntry name ms.entries with
    | some y =>
      simp [Wollets.get, Wollets.get_mut, Wollets.remove, Signers.get,
        Signers.get_mut, Signers.remove, hf, hg]
    | none =>
      simp [Wollets.get, Wollets.get_mut, Wollets.remove, Signers.get,
        Signers.get_mut, Signers.remove, hf, hg]
  | none =>
    cases hg : findEntry name ms.entries with
    | some y =>
      simp [Wollets.get, Wollets.get_mut, Wollets.remove, Signers.get,
        Signers.get_mut, Signers.remove, hf, hg]
    | none =>
      simp [Wollets.get, Wollets.get_mut, Wollets.remove, Signers.get,
        Signers.get_mut, Signers.remove, hf, hg]

/-- Witness for C6 on concrete one-entry registries. -/
theorem C6_lookup_contracts_witness :
    Wollets.get ⟨[("a", ⟨"x"⟩)]⟩ "a" = .ok ⟨"x"⟩ ∧
    Wollets.remove ⟨[("a", ⟨"x"⟩)]⟩ "a" = (.ok ⟨"x"⟩, ⟨[]⟩) ∧
    (Wollets.remove ⟨[("a", ⟨"x"⟩)]⟩ "b").2 = ⟨[("a", ⟨"x"⟩)]⟩ ∧
    (Signers.get ⟨[("a", .ExternalSigner 1)]⟩ "b"
      = .error (.SignerNotExist "b")) := by
  have hw := C6_lookup_contracts ⟨[("a", ⟨"x"⟩)]⟩ ⟨[("a", .ExternalSigner 1)]⟩ "a"
  have hb := C6_lookup_contracts ⟨[("a", ⟨"x"⟩)]⟩ ⟨[("a", .ExternalSigner 1)]⟩ "b"
  refine ⟨(hw.2.2.2.1 ⟨"x"⟩ (by simp [findEntry])).1, ?_, ?_, ?_⟩
  · have := (hw.2.2.2.1 ⟨"x"⟩ (by simp [findEntry])).2.2
    simpa [removeEntry] using this
  · exact hb.2.2.2.2.1 (by simp [findEntry])
  · exact hb.2.2.2.2.2.1.mpr (by simp [findEntry])

/-- C7: no registry operation panics on caller input: each returns its
success value or a recoverable error kind.  The wallet operations are total
functions of the embedding (address derivation is modelled from the spec as a
deterministic total attribute), so wallet insert never panics; the single
panic risk is the fingerprint `unwrap` reached by the scan inside signer
insert, and it fires only because some available signer's in-process
fingerprint derivation fails. -/
theorem C7_total_or_recoverable (mw : Wollets) (ms : Signers) (name : String)
    (w : Wollet) (s : AppSigner) :
    ((Wollets.insert mw name w).1 = .ok () ∨
      ∃ n, (Wollets.insert mw name w).1 = .error (.WalletAlreadyLoaded n)) ∧
    (Wollets.get mw name = .error (.WalletNotExist name) ∨
      ∃ x, Wollets.get mw name = .ok x) ∧
    (Wollets.get_mut mw name = .error (.WalletNotExist name) ∨
      ∃ x, Wollets.get_mut mw name = .ok x) ∧
    ((Wollets.remove mw name).1 = .error (.WalletNotExist name) ∨
      ∃ x, (Wollets.remove mw name).1 = .ok x) ∧
    (Signers.get ms name = .error (.SignerNotExist name) ∨
      ∃ x, Signers.get ms name = .ok x) ∧
    ((Signers.remove ms name).1 = .error (.SignerNotExist name) ∨
      ∃ x, (Signers.remove ms name).1 = .ok x) ∧
    (Signers.get_available ms name = .error (.SignerNotExist name) ∨
      Signers.get_available ms name
        = .error (.Generic "Invalid operation for external signer") ∨
      ∃ x, Signers.get_available ms name = .ok x) ∧
    (Signers.insert ms name s = none →
      ∃ a : AnySigner, a.fingerprintRes = none ∧
        (s = .AvailableSigner a ∨
          ∃ n, (n, AppSigner.AvailableSigner a) ∈ ms.entries)) := by
  refine ⟨?_, ?_, ?_, ?_, ?_, ?_, ?_, ?_⟩
  · by_cases hc : containsKey name mw.entries
    · exact Or.inr ⟨name, by simp [Wollets.insert, hc]⟩
    · have hc' : containsKey name mw.entries = false := by simpa using hc
      cases hh : ((mw.entries.filter
          (fun p => p.2.firstAddress = w.firstAddress)).map (·.1)).head? with
      | some e => exact Or.inr ⟨e, by simp [Wollets.insert, hc', hh]⟩
      | none => exact Or.inl (by simp [Wollets.insert, hc', hh])
  · cases hf : findEntry name mw.entries with
    | some x => exact Or.inr ⟨x, by simp [Wollets.get, hf]⟩
    | none => exact Or.inl (by simp [Wollets.get, hf])
  · cases hf : findEntry name mw.entries with
    | some x => exact Or.inr ⟨x, by simp [Wollets.get_mut, hf]⟩
    | none => exact Or.inl (by simp [Wollets.get_mut, hf])
  · cases hf : findEntry name mw.entries with
    | some x => exact Or.inr ⟨x, by simp [Wollets.remove, hf]⟩
    | none => exact Or.inl (by simp [Wollets.remove, hf])
  · cases hf : findEntry name ms.entries with
    | some x => exact Or.inr ⟨x, by simp [Signers.get, hf]⟩
    | none => exact Or.inl (by simp [Signers.get, hf])
  · cases hf : findEntry name ms.entries with
    | some x => exact Or.inr ⟨x, by simp [Signers.remove, hf]⟩
    | none => exact Or.inl (by simp [Signers.remove, hf])
  · cases hf : findEntry name ms.entries with
    | some x =>
      cases x with
      | AvailableSigner a =>
        exact Or.inr (Or.inr ⟨a, by simp [Signers.get_available, Signers.get, hf]⟩)
      | ExternalSigner f =>
        exact Or.inr (Or.inl (by simp [Signers.get_available, Signers.get, hf]))
    | none => exact Or.inl (by simp [Signers.get_available, Signers.get, hf])
  · intro h
    by_cases hc : containsKey name ms.entries
    · simp [Signers.insert, hc] at h
    · have hc' : containsKey name ms.entries = false := by simpa using hc
      cases hcol : Signers.collectFpMatches s ms.entries with
      | some ns =>
        cases hns : ns.head? with
        | some e => simp [Signers.insert, hc', hcol, hns] at h
        | none => simp [Signers.insert, hc', hcol, hns] at h
      | none =>
        rcases collectFpMatches_none hcol with ⟨p, hp, hfp⟩ | ⟨-, hfp⟩
        · obtain ⟨n0, s0⟩ := p
          cases s0 with
          | AvailableSigner a =>
            exact ⟨a, hfp, Or.inr ⟨n0, hp⟩⟩
          | ExternalSigner f => simp [AppSigner.fingerprintP] at hfp
        · cases s with
          | AvailableSigner a => exact ⟨a, hfp, Or.inl rfl⟩
          | ExternalSigner f => simp [AppSigner.fingerprintP] at hfp

/-- Witness for C7: with only an external signer loaded the insert of a
second external signer with the same fingerprint fails without panicking,
while loading next to an available signer whose derivation fails panics, and
the panic is traced to that signer. -/
theorem C7_total_or_recoverable_witness :
    ∃ a : AnySigner, a.fingerprintRes = none ∧
      (AppSigner.ExternalSigner 1 = .AvailableSigner a ∨
        ∃ n, (n, AppSigner.AvailableSigner a)
          ∈ (Signers.mk [("a", .AvailableSigner ⟨none⟩)]).entries) :=
  (C7_total_or_recoverable ⟨[]⟩ ⟨[("a", .AvailableSigner ⟨none⟩)]⟩ "b" ⟨"x"⟩
    (.ExternalSigner 1)).2.2.2.2.2.2.2 rfl

/-- C8: the two registries are independent: a signer-registry operation on
the shared state leaves the wallet registry (and the configuration snapshot)
unchanged and vice versa, and the same name may be held simultaneously by a
wallet and a signer (demonstrated from the default state). -/
theorem C8_registry_independence (st : State) (name : String) (w : Wollet)
    (s : AppSigner) :
    ((State.insertWollet st name w).2.signers = st.signers ∧
     (State.insertWollet st name w).2.config = st.config) ∧
    ((State.removeWollet st name).2.signers = st.signers ∧
     (State.removeWollet st name).2.config = st.config) ∧
    (∀ r, State.insertSigner st name s = some r →
      r.2.wollets = st.wollets ∧ r.2.config = st.config) ∧
    ((State.removeSigner st name).2.wollets = st.wollets ∧
     (State.removeSigner st name).2.config = st.config) ∧
    (State.insertSigner (State.insertWollet State.default "alice" ⟨"addr"⟩).2
        "alice" (.ExternalSigner 1)
      = some (.ok (), ⟨⟨0⟩, ⟨[("alice", ⟨"addr"⟩)]⟩,
          ⟨[("alice", .ExternalSigner 1)]⟩⟩)) := by
  refine ⟨⟨rfl, rfl⟩, ⟨rfl, rfl⟩, ?_, ⟨rfl, rfl⟩, rfl⟩
  intro r hr
  cases hins : st.signers.insert name s with
  | none => simp [State.insertSigner, hins] at hr
  | some r0 =>
    simp [State.insertSigner, hins] at hr
    simp [← hr]

/-- Witness for C8: a concrete signer insert next to a loaded wallet leaves
the wallet registry and the configuration as they were. -/
theorem C8_registry_independence_witness :
    ((Except.ok (), (⟨⟨0⟩, ⟨[("w", Wollet.mk "x")]⟩,
        ⟨[("s", AppSigner.ExternalSigner 2)]⟩⟩ : State)) :
      Except TinyRpcError Unit × State).2.wollets
        = (⟨⟨0⟩, ⟨[("w", Wollet.mk "x")]⟩, ⟨[]⟩⟩ : State).wollets ∧
    ((Except.ok (), (⟨⟨0⟩, ⟨[("w", Wollet.mk "x")]⟩,
        ⟨[("s", AppSigner.ExternalSigner 2)]⟩⟩ : State)) :
      Except TinyRpcError Unit × State).2.config
        = (⟨⟨0⟩, ⟨[("w", Wollet.mk "x")]⟩, ⟨[]⟩⟩ : State).config :=
  (C8_registry_independence ⟨⟨0⟩, ⟨[("w", ⟨"x"⟩)]⟩, ⟨[]⟩⟩ "s" ⟨"y"⟩
    (.ExternalSigner 2)).2.2.1 _ rfl

/-- C9: the external variant's fingerprint is total and returns exactly the
stored value; only the available variant can fail the derivation; and
inserting an external signer into a registry holding only external signers
never reaches the fallible derivation path (the insert cannot panic). -/
theorem C9_external_fingerprint_total (f : Fingerprint) (ms : Signers)
    (name : String) (g : Fingerprint) :
    (AppSigner.ExternalSigner f).fingerprintP = some f ∧
    (∀ a : AppSigner, a.fingerprintP = none →
      ∃ x, a = AppSigner.AvailableSigner x) ∧
    ((∀ p ∈ ms.entries, ∃ fp2, p.2 = AppSigner.ExternalSigner fp2) →
      Signers.insert ms name (.ExternalSigner g) ≠ none) := by
  refine ⟨rfl, ?_, ?_⟩
  · intro a ha
    cases a with
    | AvailableSigner x => exact ⟨x, rfl⟩
    | ExternalSigner fp2 => simp [AppSigner.fingerprintP] at ha
  · intro hall hnone
    by_cases hc : containsKey name ms.entries
    · simp [Signers.insert, hc] at hnone
    · have hc' : containsKey name ms.entries = false := by simpa using hc
      have hsome : ∀ p ∈ ms.entries, (p.2.fingerprintP).isSome := by
        intro p hp
        obtain ⟨fp2, hfp2⟩ := hall p hp
        simp [hfp2, AppSigner.fingerprintP]
      have hts : (Signers.collectFpMatches (AppSigner.ExternalSigner g)
          ms.entries).isSome :=
        collectFpMatches_total hsome (Or.inl (by simp [AppSigner.fingerprintP]))
      obtain ⟨ns, hns⟩ := Option.isSome_iff_exists.mp hts
      cases hhead : ns.head? with
      | some e => simp [Signers.insert, hc', hns, hhead] at hnone
      | none => simp [Signers.insert, hc', hns, hhead] at hnone

/-- Witness for C9: inserting a second external signer with a distinct
fingerprint next to an external signer does not panic. -/
theorem C9_external_fingerprint_total_witness :
    (AppSigner.ExternalSigner 5).fingerprintP = some 5 ∧
    Signers.insert ⟨[("e", .ExternalSigner 5)]⟩ "n" (.ExternalSigner 6)
      ≠ none :=
  ⟨(C9_external_fingerprint_total 5 ⟨[("e", .ExternalSigner 5)]⟩ "n" 6).1,
   (C9_external_fingerprint_total 5 ⟨[("e", .ExternalSigner 5)]⟩ "n" 6).2.2
     (by
       intro p hp
       simp only [List.mem_singleton] at hp
       subst hp
       exact ⟨5, rfl⟩)⟩

/-- C10: both inserts test the name before computing any derived identity: a
name collision fails `AlreadyLoaded` with the rejected name for every entity,
even one whose derived identity also collides or whose fingerprint derivation
would panic (so no derivation is reached on this path). -/
theorem C10_name_check_precedes_identity (mw : Wollets) (ms : Signers)
    (name : String) (w : Wollet) (s : AppSigner)
    (hw : containsKey name mw.entries = true)
    (hs : containsKey name ms.entries = true) :
    Wollets.insert mw name w = (.error (.WalletAlreadyLoaded name), mw) ∧
    Signers.insert ms name s = some (.error (.SignerAlreadyLoaded name), ms) :=
  ⟨wollets_insert_name_collision mw name w hw,
   signers_insert_name_collision ms name s hs⟩

/-- Witness for C10: the rejected wallet also shares the stored wallet's
address, and both the stored and the rejected signer would panic on
fingerprint derivation, yet the name collision is reported without reaching
either derivation. -/
theorem C10_name_check_precedes_identity_witness :
    Wollets.insert ⟨[("a", ⟨"x"⟩)]⟩ "a" ⟨"x"⟩
        = (.error (.WalletAlreadyLoaded "a"), ⟨[("a", ⟨"x"⟩)]⟩) ∧
    Signers.insert ⟨[("a", .AvailableSigner ⟨none⟩)]⟩ "a"
        (.AvailableSigner ⟨none⟩)
      = some (.error (.SignerAlreadyLoaded "a"),
          ⟨[("a", .AvailableSigner ⟨none⟩)]⟩) :=
  C10_name_check_precedes_identity ⟨[("a", ⟨"x"⟩)]⟩
    ⟨[("a", .AvailableSigner ⟨none⟩)]⟩ "a" ⟨"x"⟩ (.AvailableSigner ⟨none⟩)
    (by simp [containsKey]) (by simp [containsKey])
